import Mathlib

/-!
Verification of the `create-sid-react-app` scaffolding CLI.

The embedding models POSIX paths as lists of segments, the file system as a
partial map from absolute paths to entries, and the two source functions:

* `createApp` (src/createApp.ts) — copy the bundled template, patch the
  `name` field of the copied `package.json`, `chdir` to the target, run
  `npm install`, and print progress messages;
* the CLI action (src/bin/index.ts) — resolve the positional project-name
  argument against the current working directory and call
  `createApp(targetDir, projectName)` (note the argument order at the call
  site versus the parameter order `createApp(projectName, targetDir)` of the
  function itself).

Side effects are recorded as a trace of `Eff` events so that temporal claims
(ordering of `chdir` and the install subprocess, console output) can be
stated.
-/

namespace CreateSidReactApp

/-- A file-system entry: a directory, an opaque file, or a JSON file whose
object value is kept structured as an association list of fields (field name
to printed field value), as `fs.readJson`/`fs.writeJson` see it. -/
inductive Entry where
  | dir : Entry
  | file (data : String) : Entry
  | jsonFile (fields : List (String × String)) : Entry
  deriving DecidableEq, Repr

/-- Failures surfaced by the embedded steps: the copy source is missing
(ENOENT from `fs.copy`), the JSON file to read is missing, the file read is
not a JSON file, or the install subprocess exited non-zero. -/
inductive Err where
  | srcNotFound : Err
  | missingFile : Err
  | badJson : Err
  | installFailed : Err
  deriving DecidableEq, Repr

/-- The file system: a partial map from absolute paths (lists of segments)
to entries. -/
def FS : Type := List String → Option Entry

/-- Process state: the process-wide current working directory (an absolute
path, as segments) and the file system. -/
structure St where
  cwd : List String
  fs : FS

/-- Split a character list on `/`, keeping empty segments (the raw
segmentation Node's path routines perform before normalisation). -/
def splitAux : List Char → List Char → List String
  | [], acc => [String.mk acc.reverse]
  | c :: cs, acc =>
    if c = '/' then String.mk acc.reverse :: splitAux cs []
    else splitAux cs (c :: acc)

/-- Raw segments of a path string. -/
def splitPath (s : String) : List String :=
  splitAux s.data []

/-- Whether a path string is absolute (starts with `/`). -/
def isAbs (s : String) : Bool :=
  match s.data with
  | c :: _ => c = '/'
  | [] => false

/-- One normalisation step of path resolution: empty and `.` segments are
dropped, `..` pops the last segment (a no-op at the root), and any other
segment is appended. -/
def normStep (acc : List String) (seg : String) : List String :=
  if seg = "" ∨ seg = "." then acc
  else if seg = ".." then acc.dropLast
  else acc ++ [seg]

/-- Node's `path.resolve(cwd, p)`: if `p` is absolute it is normalised on
its own, otherwise it is normalised on top of `cwd` (assumed already
normalised). The result is an absolute path as segments. -/
def resolveP (cwd : List String) (p : String) : List String :=
  if isAbs p then (splitPath p).foldl normStep []
  else (splitPath p).foldl normStep cwd

/-- Render an absolute path (as segments) back to a string, as
`path.resolve` returns it. -/
def renderAbs (segs : List String) : String :=
  "/" ++ String.intercalate "/" segs

/-- Node's `path.basename`: the last non-empty raw segment of the string
(trailing slashes ignored), or `""` when there is none. No normalisation of
`.` or `..` is performed. -/
def basenameP (s : String) : String :=
  ((splitPath s).filter (fun t => t != "")).getLastD ""

/-- If `l = pre ++ r`, return `some r`, else `none`. -/
def dropPre : List String → List String → Option (List String)
  | [], p => some p
  | _ :: _, [] => none
  | a :: pre, b :: p => if a = b then dropPre pre p else none

/-- The file system after a successful `fs.copy src dest`: every path under
`src` is mirrored under `dest`, overwriting entries already present at the
same relative path and leaving destination entries with no counterpart in
the source in place (merge-overwrite); missing ancestors of `dest` are
created as directories; everything else is untouched. -/
def copyMap (fs : FS) (src dest : List String) : FS :=
  fun p =>
    match dropPre dest p with
    | some r =>
      match fs (src ++ r) with
      | some e => some e
      | none => fs p
    | none =>
      match dropPre p dest with
      | some (_ :: _) =>
        match fs p with
        | some e => some e
        | none => some Entry.dir
      | _ => fs p

/-- `fs-extra`'s `fs.copy src dest`: fails with ENOENT (leaving the file
system untouched) when `src` does not exist — the source is stat'ed before
anything is created at the destination; otherwise the file system becomes
`copyMap fs src dest`. -/
def copyFS (fs : FS) (src dest : List String) : Except Err FS :=
  match fs src with
  | none => .error .srcNotFound
  | some _ => .ok (copyMap fs src dest)

/-- `fs.readJson`: the file must exist and be a JSON file. -/
def readJsonFS (fs : FS) (p : List String) : Except Err (List (String × String)) :=
  match fs p with
  | some (Entry.jsonFile kvs) => .ok kvs
  | some _ => .error .badJson
  | none => .error .missingFile

/-- `fs.writeJson`: overwrite the file at `p` with the given JSON object. -/
def writeJsonFS (fs : FS) (p : List String) (kvs : List (String × String)) : FS :=
  fun q => if q = p then some (Entry.jsonFile kvs) else fs q

/-- JavaScript property assignment `obj.name = v` on an object kept as an
association list: replace the value at the first occurrence of the key, or
append the binding when the key is absent. -/
def setField : List (String × String) → String → String → List (String × String)
  | [], k, v => [(k, v)]
  | (k1, v1) :: rest, k, v =>
    if k1 = k then (k, v) :: rest else (k1, v1) :: setField rest k v

/-- An observable side effect of a run, in order of occurrence. -/
inductive Eff where
  | log (msg : String) : Eff
  | copied (src dest : List String) : Eff
  | wroteJson (path : List String) (spaces : Nat) : Eff
  | chdir (dst : List String) : Eff
  | exec (cmd : String) (cwd : List String) : Eff
  deriving DecidableEq, Repr

/-- The observable outcome of a run: the effect trace, the final process
state, and success or the error that aborted the run. -/
structure Outcome where
  effs : List Eff
  st : St
  result : Except Err Unit

/-- Process exit code: 0 on success, non-zero (an uncaught rejection)
otherwise. -/
def exitCode : Except Err Unit → Nat
  | .ok _ => 0
  | .error _ => 1

/-- Embedding of `createApp(projectName, targetDir)` from src/createApp.ts.
`templateDir` is the absolute path `path.resolve(__dirname, "../../template")`
of the bundled template; `installExit` is the exit status of the
`npm install` child process. The parameter order is that of the source
function's signature. Relative paths in `targetDir` are resolved against the
process working directory at the time of each file-system call, exactly as
Node does. -/
def createApp (templateDir : List String) (installExit : Nat)
    (projectName targetDir : String) (st : St) : Outcome :=
  let effs0 := [Eff.log ("\nCreating project: " ++ projectName)]
  let dest := resolveP st.cwd targetDir
  match copyFS st.fs templateDir dest with
  | .error e => ⟨effs0, st, .error e⟩
  | .ok fs1 =>
    let effs1 := effs0 ++ [Eff.copied templateDir dest, Eff.log "✔ Template copied"]
    let pkgJsonPath := resolveP st.cwd (targetDir ++ "/package.json")
    match readJsonFS fs1 pkgJsonPath with
    | .error e => ⟨effs1, ⟨st.cwd, fs1⟩, .error e⟩
    | .ok pkgJson =>
      let appName := basenameP targetDir
      let pkgJson2 := setField pkgJson "name" appName
      let fs2 := writeJsonFS fs1 pkgJsonPath pkgJson2
      let effs2 := effs1 ++ [Eff.wroteJson pkgJsonPath 2]
      let newCwd := resolveP st.cwd targetDir
      let effs3 := effs2 ++ [Eff.chdir newCwd, Eff.log "Installing dependencies..."]
      let effs4 := effs3 ++ [Eff.exec "npm install" newCwd]
      if installExit = 0 then
        ⟨effs4 ++ [Eff.log "✔ Dependencies installed",
                   Eff.log "\nAll done! Run the following:",
                   Eff.log ("\ncd " ++ projectName ++ " && npm run dev\n")],
         ⟨newCwd, fs2⟩, .ok ()⟩
      else
        ⟨effs4, ⟨newCwd, fs2⟩, .error .installFailed⟩

/-- The pair of arguments the CLI action (src/bin/index.ts) passes to
`createApp` for a given working directory and raw project-name argument:
`createApp(targetDir, projectName)` with
`targetDir = path.resolve(process.cwd(), projectName)`. -/
def cliArgs (cwd : List String) (projectName : String) : String × String :=
  (renderAbs (resolveP cwd projectName), projectName)

/-- Embedding of the CLI action of src/bin/index.ts: resolve the target
directory from the working directory and the raw project-name argument and
invoke `createApp` with the argument pair `cliArgs`. -/
def cliProgramAction (templateDir : List String) (installExit : Nat)
    (projectName : String) (st : St) : Outcome :=
  createApp templateDir installExit (cliArgs st.cwd projectName).1
    (cliArgs st.cwd projectName).2 st

/-- The shell commands spawned during a run, with the working directory each
was spawned in. -/
def execsIn (l : List Eff) : List (String × List String) :=
  l.filterMap fun e =>
    match e with
    | Eff.exec c d => some (c, d)
    | _ => none

/-- `true` iff the trace contains no working-directory change. -/
def noChdir (l : List Eff) : Bool :=
  l.all fun e =>
    match e with
    | Eff.chdir _ => false
    | _ => true

/-- `true` iff, in the trace: no subprocess is spawned before the first
working-directory change, that change switches to `d`, the working directory
is never changed afterwards, and exactly one subprocess is spawned after it —
`npm install`, with working directory `d`. -/
def cwdSwitchedBeforeInstall (d : List String) : List Eff → Bool
  | [] => false
  | Eff.exec _ _ :: _ => false
  | Eff.chdir x :: rest =>
    x == d && noChdir rest && (execsIn rest == [("npm install", d)])
  | _ :: rest => cwdSwitchedBeforeInstall d rest

/-- A project-name string that is a single plain path segment: non-empty,
not `.` or `..`, and containing no path separator. -/
def plainSeg (s : String) : Prop :=
  s ≠ "" ∧ s ≠ "." ∧ s ≠ ".." ∧ '/' ∉ s.data

instance (s : String) : Decidable (plainSeg s) := by
  unfold plainSeg; infer_instance

/-- Location of the bundled template in the concrete test scenario. -/
def demoTpl : List String := ["opt", "tool", "template"]

/-- A concrete file system for test scenarios: the bundled template holds a
`package.json` (with `name` `"template"` and a `version` field) and a nested
source file; nothing else exists. -/
def demoFS : FS := fun p =>
  if p = demoTpl then some Entry.dir
  else if p = demoTpl ++ ["package.json"] then
    some (Entry.jsonFile [("name", "template"), ("version", "0.0.1")])
  else if p = demoTpl ++ ["src"] then some Entry.dir
  else if p = demoTpl ++ ["src", "main.tsx"] then some (Entry.file "main")
  else none

/-- Concrete initial process state: working directory `/work`, file system
`demoFS`. -/
def demoSt : St := ⟨["work"], demoFS⟩

/-! ### Lemmas about the path model -/

theorem strMk_data (s : String) : String.mk s.data = s := rfl

theorem splitAux_no_slash (cs : List Char) (h : '/' ∉ cs) :
    ∀ acc, splitAux cs acc = [String.mk (acc.reverse ++ cs)] := by
  induction cs with
  | nil => intro acc; simp [splitAux]
  | cons c cs ih =>
    intro acc
    have hc : ¬(c = '/') := fun h1 => h (by simp [h1])
    have hcs : '/' ∉ cs := fun h1 => h (by simp [h1])
    simp only [splitAux, if_neg hc, ih hcs]
    simp

theorem splitPath_plain (s : String) (h : '/' ∉ s.data) : splitPath s = [s] := by
  unfold splitPath
  rw [splitAux_no_slash s.data h]
  simp [strMk_data]

theorem data_ne_nil (s : String) (h : s ≠ "") : s.data ≠ [] := by
  intro h1
  apply h
  have := strMk_data s
  rw [h1] at this
  exact this.symm

theorem isAbs_eq_false (s : String) (h : '/' ∉ s.data) : isAbs s = false := by
  unfold isAbs
  cases hd : s.data with
  | nil => rfl
  | cons c cs =>
    have hc : ¬(c = '/') := fun h1 => h (by rw [hd, h1]; simp)
    simp [hc]

theorem resolveP_plain (cwd : List String) (s : String) (h : plainSeg s) :
    resolveP cwd s = cwd ++ [s] := by
  obtain ⟨h1, h2, h3, h4⟩ := h
  unfold resolveP
  rw [isAbs_eq_false s h4, splitPath_plain s h4]
  simp [normStep, h1, h2, h3]

theorem basenameP_plain (s : String) (h : plainSeg s) : basenameP s = s := by
  obtain ⟨h1, _, _, h4⟩ := h
  unfold basenameP
  rw [splitPath_plain s h4]
  have hb : (s != "") = true := bne_iff_ne.mpr h1
  simp [List.filter, hb]

theorem splitAux_append_slash (cs ds : List Char) (h : '/' ∉ cs) :
    ∀ acc, splitAux (cs ++ '/' :: ds) acc =
      String.mk (acc.reverse ++ cs) :: splitAux ds [] := by
  induction cs with
  | nil => intro acc; simp [splitAux]
  | cons c cs ih =>
    intro acc
    have hc : ¬(c = '/') := fun h1 => h (by simp [h1])
    have hcs : '/' ∉ cs := fun h1 => h (by simp [h1])
    simp only [List.cons_append, splitAux, if_neg hc, List.append_eq]
    rw [ih hcs]
    simp

theorem resolveP_plain_join (cwd : List String) (s : String) (h : plainSeg s) :
    resolveP cwd (s ++ "/package.json") = cwd ++ [s, "package.json"] := by
  obtain ⟨h1, h2, h3, h4⟩ := h
  have hdata : (s ++ "/package.json").data = s.data ++ '/' :: "package.json".data := by
    rw [String.data_append]
  have habs : isAbs (s ++ "/package.json") = false := by
    unfold isAbs
    rw [hdata]
    cases hd : s.data with
    | nil => exact absurd hd (data_ne_nil s h1)
    | cons c cs =>
      have hc : ¬(c = '/') := fun h5 => h4 (by rw [hd, h5]; simp)
      simp [hc]
  have hsplit : splitPath (s ++ "/package.json") = [s, "package.json"] := by
    unfold splitPath
    rw [hdata, splitAux_append_slash s.data _ h4]
    have : splitAux "package.json".data [] = ["package.json"] := by decide
    simp [this, strMk_data]
  unfold resolveP
  rw [habs, hsplit]
  simp [normStep, h1, h2, h3]

/-! ### Lemmas about `dropPre`, `setField`, `copyMap`, `writeJsonFS` -/

theorem dropPre_append (l r : List String) : dropPre l (l ++ r) = some r := by
  induction l with
  | nil => rfl
  | cons a l ih => simp [dropPre, ih]

theorem dropPre_eq_some (pre l r : List String) (h : dropPre pre l = some r) :
    l = pre ++ r := by
  induction pre generalizing l with
  | nil => simpa [dropPre] using h
  | cons a pre ih =>
    cases l with
    | nil => simp [dropPre] at h
    | cons b l =>
      by_cases hab : a = b
      · subst hab
        simp only [dropPre, if_pos rfl] at h
        simpa using ih l h
      · simp [dropPre, hab] at h

theorem setField_lookup_ne (kvs : List (String × String)) (nm k v : String)
    (h : k ≠ nm) : (setField kvs nm v).lookup k = kvs.lookup k := by
  have hbeq : (k == nm) = false := beq_eq_false_iff_ne.mpr h
  induction kvs with
  | nil => simp [setField, List.lookup, hbeq]
  | cons p rest ih =>
    obtain ⟨k1, v1⟩ := p
    by_cases h1 : k1 = nm
    · subst h1
      simp [setField, List.lookup, hbeq]
    · simp only [setField, if_neg h1, List.lookup]
      cases hkk : k == k1 with
      | true => rfl
      | false => exact ih

theorem copyMap_src_some (fs : FS) (src dest r : List String) (e : Entry)
    (h : fs (src ++ r) = some e) : copyMap fs src dest (dest ++ r) = some e := by
  unfold copyMap
  rw [dropPre_append]
  simp [h]

theorem copyMap_src_none (fs : FS) (src dest r : List String)
    (h : fs (src ++ r) = none) :
    copyMap fs src dest (dest ++ r) = fs (dest ++ r) := by
  unfold copyMap
  rw [dropPre_append]
  simp [h]

theorem copyMap_ancestor (fs : FS) (src dest q r : List String)
    (hq : dropPre q dest = some r) (hr : r ≠ []) :
    (copyMap fs src dest q).isSome = true := by
  unfold copyMap
  cases hd : dropPre dest q with
  | some r2 =>
    exfalso
    have e1 : q = dest ++ r2 := dropPre_eq_some _ _ _ hd
    have e2 : dest = q ++ r := dropPre_eq_some _ _ _ hq
    have e3 : dest = dest ++ r2 ++ r := by rw [← e1, ← e2]
    have hlen : dest.length = dest.length + r2.length + r.length := by
      conv_lhs => rw [e3]
      simp [List.length_append]
      omega
    have : r.length = 0 := by omega
    exact hr (List.eq_nil_of_length_eq_zero this)
  | none =>
    rw [hq]
    cases r with
    | nil => exact absurd rfl hr
    | cons a r => cases hf : fs q <;> simp

theorem writeJsonFS_at (fs : FS) (p : List String) (kvs : List (String × String)) :
    writeJsonFS fs p kvs p = some (Entry.jsonFile kvs) := by
  simp [writeJsonFS]

theorem writeJsonFS_ne (fs : FS) (p q : List String) (kvs : List (String × String))
    (h : q ≠ p) : writeJsonFS fs p kvs q = fs q := by
  simp [writeJsonFS, h]

/-! ### Symbolic evaluation of a run whose target is a plain segment -/

/-- Full evaluation of `createApp` when the `targetDir` argument is a plain
path segment and the bundled template exists and contains a JSON
`package.json`: the trace, final state, and result are all explicit. -/
theorem createApp_run (templateDir : List String) (installExit : Nat)
    (pn td : String) (st : St) (e0 : Entry) (kvs : List (String × String))
    (hseg : plainSeg td)
    (htpl : st.fs templateDir = some e0)
    (hpkg : st.fs (templateDir ++ ["package.json"]) = some (Entry.jsonFile kvs)) :
    createApp templateDir installExit pn td st =
      ⟨[Eff.log ("\nCreating project: " ++ pn),
        Eff.copied templateDir (st.cwd ++ [td]),
        Eff.log "✔ Template copied",
        Eff.wroteJson (st.cwd ++ [td, "package.json"]) 2,
        Eff.chdir (st.cwd ++ [td]),
        Eff.log "Installing dependencies...",
        Eff.exec "npm install" (st.cwd ++ [td])] ++
       (if installExit = 0 then
          [Eff.log "✔ Dependencies installed",
           Eff.log "\nAll done! Run the following:",
           Eff.log ("\ncd " ++ pn ++ " && npm run dev\n")]
        else []),
       ⟨st.cwd ++ [td],
        writeJsonFS (copyMap st.fs templateDir (st.cwd ++ [td]))
          (st.cwd ++ [td, "package.json"]) (setField kvs "name" td)⟩,
       if installExit = 0 then Except.ok () else Except.error Err.installFailed⟩ := by
  have hres : resolveP st.cwd td = st.cwd ++ [td] := resolveP_plain _ _ hseg
  have hres2 : resolveP st.cwd (td ++ "/package.json") = st.cwd ++ [td, "package.json"] :=
    resolveP_plain_join _ _ hseg
  have hcm : copyMap st.fs templateDir (st.cwd ++ [td]) (st.cwd ++ [td, "package.json"]) =
      some (Entry.jsonFile kvs) := by
    have e1 : st.cwd ++ [td, "package.json"] = (st.cwd ++ [td]) ++ ["package.json"] := by
      simp
    rw [e1]
    exact copyMap_src_some _ _ _ _ _ hpkg
  have hread : readJsonFS (copyMap st.fs templateDir (st.cwd ++ [td]))
      (st.cwd ++ [td, "package.json"]) = Except.ok kvs := by
    unfold readJsonFS
    rw [hcm]
  have hbn : basenameP td = td := basenameP_plain _ hseg
  unfold createApp
  rw [hres, hres2]
  unfold copyFS
  rw [htpl]
  simp only [hread, hbn]
  by_cases he : installExit = 0 <;> simp [he]

/-! ### Claims -/

/-- C1: the claim states that the scaffolder receives the raw project-name
string first and the resolved absolute path second, per the contract
`run(projectName, targetDirectory)`. The CLI action in src/bin/index.ts in
fact calls `createApp(targetDir, projectName)`: with working directory
`/work` and argument `demo`, the pair passed is `("/work/demo", "demo")` —
the absolute path first and the raw name second, the reverse of the
contract. -/
theorem claim1_scaffolder_args_swapped :
    cliArgs ["work"] "demo" = ("/work/demo", "demo")
    ∧ ("/work/demo" : String) ≠ "demo" := by
  decide

/-- C2: the claim states that the `name` field written to the target's
`package.json` equals the base name of the resolved target directory for
every supplied project name. With working directory `/work` and project
name `"."`, the resolved target directory is `/work`, whose base name is
`"work"`; but the code (which, due to the swapped call, takes the base name
of the raw argument) writes `name = "."`. -/
theorem claim2_name_from_raw_argument :
    (cliProgramAction demoTpl 0 "." demoSt).st.fs ["work", "package.json"] =
      some (Entry.jsonFile [("name", "."), ("version", "0.0.1")])
    ∧ resolveP ["work"] "." = ["work"]
    ∧ basenameP (renderAbs ["work"]) = "work"
    ∧ ("." : String) ≠ "work" := by
  decide

/-- C3: the claim states that the completion message names
`cd <projectName>` with the user-supplied project-name string. With working
directory `/work` and argument `demo`, the last message printed is
`cd /work/demo && npm run dev` — the `projectName` parameter holds the
resolved absolute path because the call site swapped the arguments — not
`cd demo && npm run dev` as the claim requires. -/
theorem claim3_completion_prints_resolved_path :
    (cliProgramAction demoTpl 0 "demo" demoSt).effs.getLast? =
      some (Eff.log "\ncd /work/demo && npm run dev\n")
    ∧ ("\ncd /work/demo && npm run dev\n" : String) ≠ "\ncd demo && npm run dev\n" := by
  decide

/-- Additional copy lemma: copying a present source onto `dest` puts the
source's own entry at `dest` itself. -/
theorem copyMap_src_self (fs : FS) (src dest : List String) (e : Entry)
    (h : fs src = some e) : copyMap fs src dest dest = some e := by
  have h2 : fs (src ++ ([] : List String)) = some e := by simpa using h
  have := copyMap_src_some fs src dest [] e h2
  simpa using this

/-- C7: if the bundled template directory does not exist at invocation time,
the run fails (with the copy step's source-not-found error) before anything
is written: the process state is exactly the initial one and the only effect
in the trace is the initial progress message — no copy, no JSON write, no
chdir, no subprocess. -/
theorem claim7_missing_template_fails_before_writes
    (templateDir : List String) (installExit : Nat) (pn : String) (st : St)
    (htpl : st.fs templateDir = none) :
    (cliProgramAction templateDir installExit pn st).result =
      Except.error Err.srcNotFound
    ∧ (cliProgramAction templateDir installExit pn st).st = st
    ∧ (cliProgramAction templateDir installExit pn st).effs =
        [Eff.log ("\nCreating project: " ++ (cliArgs st.cwd pn).1)] := by
  unfold cliProgramAction createApp copyFS
  rw [htpl]
  simp

/-- C7 witness: with the template location pointing at a path absent from
the concrete file system, the run errors out with `srcNotFound`. -/
theorem claim7_witness :
    (cliProgramAction ["nowhere"] 0 "demo" demoSt).result =
      Except.error Err.srcNotFound :=
  (claim7_missing_template_fails_before_writes ["nowhere"] 0 "demo" demoSt
    (by decide)).1

/-- C9: every subprocess spawned during any run — for every template
location, install exit status, argument strings, and initial state — has the
constant command string `npm install`; the command depends on no input. -/
theorem claim9_install_command_constant
    (templateDir : List String) (installExit : Nat) (pn td : String) (st : St) :
    ((execsIn (createApp templateDir installExit pn td st).effs).all
      (fun c => c.1 == "npm install")) = true := by
  simp only [createApp, copyFS]
  cases htpl : st.fs templateDir with
  | none => simp [execsIn]
  | some e0 =>
    cases hread : readJsonFS (copyMap st.fs templateDir (resolveP st.cwd td))
        (resolveP st.cwd (td ++ "/package.json")) with
    | error e => simp [hread, execsIn]
    | ok kvs =>
      by_cases he : installExit = 0 <;> simp [hread, he, execsIn]

/-- C4: for a project name that is a plain path segment (non-empty, not `.`
or `..`, no separator), a successful run (template present with its
`package.json`, install exiting 0) succeeds, leaves a directory named
`projectName` under the invocation directory, mirrors every template entry
(recursively) beneath it — with contents identical except the patched
`package.json` — and every missing ancestor of the target directory has been
created. -/
theorem claim4_copy_creates_target_with_template
    (templateDir : List String) (pn : String) (st : St)
    (kvs : List (String × String))
    (hseg : plainSeg pn)
    (htpl : st.fs templateDir = some Entry.dir)
    (hpkg : st.fs (templateDir ++ ["package.json"]) = some (Entry.jsonFile kvs)) :
    (cliProgramAction templateDir 0 pn st).result = Except.ok ()
    ∧ (cliProgramAction templateDir 0 pn st).st.fs (st.cwd ++ [pn]) =
        some Entry.dir
    ∧ (∀ r e, st.fs (templateDir ++ r) = some e →
        ((cliProgramAction templateDir 0 pn st).st.fs
          ((st.cwd ++ [pn]) ++ r)).isSome = true)
    ∧ (∀ r e, st.fs (templateDir ++ r) = some e → r ≠ ["package.json"] →
        (cliProgramAction templateDir 0 pn st).st.fs ((st.cwd ++ [pn]) ++ r) =
          some e)
    ∧ (∀ q r, dropPre q (st.cwd ++ [pn]) = some r → r ≠ [] →
        ((cliProgramAction templateDir 0 pn st).st.fs q).isSome = true) := by
  have hout : cliProgramAction templateDir 0 pn st =
      createApp templateDir 0 (cliArgs st.cwd pn).1 pn st := rfl
  rw [hout, createApp_run _ _ _ _ _ Entry.dir kvs hseg htpl hpkg]
  have hpkgeq : st.cwd ++ [pn, "package.json"] = (st.cwd ++ [pn]) ++ ["package.json"] := by
    simp
  refine ⟨by simp, ?_, ?_, ?_, ?_⟩
  · dsimp only
    have hne1 : st.cwd ++ [pn] ≠ st.cwd ++ [pn, "package.json"] := by simp
    rw [writeJsonFS_ne _ _ _ _ hne1]
    exact copyMap_src_self _ _ _ _ htpl
  · intro r e hf
    dsimp only
    by_cases hq : (st.cwd ++ [pn]) ++ r = st.cwd ++ [pn, "package.json"]
    · rw [hq, writeJsonFS_at]
      simp
    · rw [writeJsonFS_ne _ _ _ _ hq, copyMap_src_some _ _ _ _ _ hf]
      simp
  · intro r e hf hr
    dsimp only
    have hq : (st.cwd ++ [pn]) ++ r ≠ st.cwd ++ [pn, "package.json"] := by
      rw [hpkgeq]
      intro h1
      exact hr (List.append_cancel_left h1)
    rw [writeJsonFS_ne _ _ _ _ hq]
    exact copyMap_src_some _ _ _ _ _ hf
  · intro q r hq hr
    dsimp only
    have hdest : st.cwd ++ [pn] = q ++ r := dropPre_eq_some _ _ _ hq
    have hne : q ≠ st.cwd ++ [pn, "package.json"] := by
      intro h1
      have l1 : st.cwd.length + 1 = q.length + r.length := by
        have := congrArg List.length hdest
        simpa using this
      have l2 : q.length = st.cwd.length + 2 := by
        rw [h1]
        simp
      have l3 : 0 < r.length := List.length_pos.mpr hr
      omega
    rw [writeJsonFS_ne _ _ _ _ hne]
    exact copyMap_ancestor _ _ _ _ _ hq hr

/-- C4 witness: in the concrete scenario (`/work`, project `demo`), the
nested template file lands at `/work/demo/src/main.tsx` with its content. -/
theorem claim4_witness :
    (cliProgramAction demoTpl 0 "demo" demoSt).st.fs
      ["work", "demo", "src", "main.tsx"] = some (Entry.file "main") := by
  have h := (claim4_copy_creates_target_with_template demoTpl "demo" demoSt
      [("name", "template"), ("version", "0.0.1")]
      (by decide) (by decide) (by decide)).2.2.2.1
  have h2 := h ["src", "main.tsx"] (Entry.file "main") (by decide) (by decide)
  simpa using h2

/-- C5: the manifest patch writes back exactly the template's
`package.json` object with only the `name` field re-bound (every key other
than `name` looks up to its original value), and the write is performed
with 2-space indentation. -/
theorem claim5_patch_changes_only_name
    (templateDir : List String) (installExit : Nat) (pn : String) (st : St)
    (e0 : Entry) (kvs : List (String × String))
    (hseg : plainSeg pn)
    (htpl : st.fs templateDir = some e0)
    (hpkg : st.fs (templateDir ++ ["package.json"]) = some (Entry.jsonFile kvs)) :
    (cliProgramAction templateDir installExit pn st).st.fs
        (st.cwd ++ [pn, "package.json"]) =
      some (Entry.jsonFile (setField kvs "name" pn))
    ∧ (∀ k, k ≠ "name" → (setField kvs "name" pn).lookup k = kvs.lookup k)
    ∧ Eff.wroteJson (st.cwd ++ [pn, "package.json"]) 2 ∈
        (cliProgramAction templateDir installExit pn st).effs := by
  have hout : cliProgramAction templateDir installExit pn st =
      createApp templateDir installExit (cliArgs st.cwd pn).1 pn st := rfl
  rw [hout, createApp_run _ _ _ _ _ e0 kvs hseg htpl hpkg]
  refine ⟨?_, fun k hk => setField_lookup_ne kvs "name" k pn hk, ?_⟩
  · dsimp only
    exact writeJsonFS_at _ _ _
  · dsimp only
    simp

/-- C5 witness: in the concrete scenario the written manifest has the new
`name` and the untouched `version`. -/
theorem claim5_witness :
    (cliProgramAction demoTpl 0 "demo" demoSt).st.fs
      ["work", "demo", "package.json"] =
      some (Entry.jsonFile [("name", "demo"), ("version", "0.0.1")]) := by
  have h := (claim5_patch_changes_only_name demoTpl 0 "demo" demoSt Entry.dir
      [("name", "template"), ("version", "0.0.1")]
      (by decide) (by decide) (by decide)).1
  have e1 : setField [("name", "template"), ("version", "0.0.1")] "name" "demo" =
      [("name", "demo"), ("version", "0.0.1")] := by decide
  rw [e1] at h
  simpa using h

/-- C6: when the install subprocess exits non-zero, the run ends in
`installFailed` — a non-zero process exit code — while every copied template
entry and the patched `package.json` are still on disk: nothing is rolled
back. -/
theorem claim6_install_failure_no_rollback
    (templateDir : List String) (installExit : Nat) (pn : String) (st : St)
    (e0 : Entry) (kvs : List (String × String))
    (hseg : plainSeg pn)
    (htpl : st.fs templateDir = some e0)
    (hpkg : st.fs (templateDir ++ ["package.json"]) = some (Entry.jsonFile kvs))
    (hexit : installExit ≠ 0) :
    (cliProgramAction templateDir installExit pn st).result =
      Except.error Err.installFailed
    ∧ exitCode (cliProgramAction templateDir installExit pn st).result ≠ 0
    ∧ (∀ r e, st.fs (templateDir ++ r) = some e →
        ((cliProgramAction templateDir installExit pn st).st.fs
          ((st.cwd ++ [pn]) ++ r)).isSome = true)
    ∧ (cliProgramAction templateDir installExit pn st).st.fs
        (st.cwd ++ [pn, "package.json"]) =
      some (Entry.jsonFile (setField kvs "name" pn)) := by
  have hout : cliProgramAction templateDir installExit pn st =
      createApp templateDir installExit (cliArgs st.cwd pn).1 pn st := rfl
  rw [hout, createApp_run _ _ _ _ _ e0 kvs hseg htpl hpkg]
  refine ⟨by simp [hexit], by simp [hexit, exitCode], ?_, ?_⟩
  · intro r e hf
    dsimp only
    by_cases hq : (st.cwd ++ [pn]) ++ r = st.cwd ++ [pn, "package.json"]
    · rw [hq, writeJsonFS_at]
      simp
    · rw [writeJsonFS_ne _ _ _ _ hq, copyMap_src_some _ _ _ _ _ hf]
      simp
  · dsimp only
    exact writeJsonFS_at _ _ _

/-- C6 witness: with the install subprocess exiting 7, the concrete run has
a non-zero exit code. -/
theorem claim6_witness :
    exitCode (cliProgramAction demoTpl 7 "demo" demoSt).result ≠ 0 :=
  (claim6_install_failure_no_rollback demoTpl 7 "demo" demoSt Entry.dir
      [("name", "template"), ("version", "0.0.1")]
      (by decide) (by decide) (by decide) (by decide)).2.1

/-- C8: in a run that reaches the install step, the trace shows the
process-wide working directory switched to the resolved target directory
before any subprocess is spawned, never switched afterwards, and exactly one
subprocess spawned after the switch — `npm install` with the target
directory as its working directory. The process also ends with the target
as its working directory. -/
theorem claim8_chdir_before_install
    (templateDir : List String) (installExit : Nat) (pn : String) (st : St)
    (e0 : Entry) (kvs : List (String × String))
    (hseg : plainSeg pn)
    (htpl : st.fs templateDir = some e0)
    (hpkg : st.fs (templateDir ++ ["package.json"]) = some (Entry.jsonFile kvs)) :
    cwdSwitchedBeforeInstall (resolveP st.cwd pn)
      (cliProgramAction templateDir installExit pn st).effs = true
    ∧ (cliProgramAction templateDir installExit pn st).st.cwd =
        resolveP st.cwd pn := by
  have hres : resolveP st.cwd pn = st.cwd ++ [pn] := resolveP_plain _ _ hseg
  rw [hres]
  have hout : cliProgramAction templateDir installExit pn st =
      createApp templateDir installExit (cliArgs st.cwd pn).1 pn st := rfl
  rw [hout, createApp_run _ _ _ _ _ e0 kvs hseg htpl hpkg]
  constructor
  · dsimp only
    by_cases he : installExit = 0 <;>
      simp [he, cwdSwitchedBeforeInstall, noChdir, execsIn]
  · dsimp only

/-- C8 witness: the concrete run's trace satisfies the
switch-before-install check for the resolved target `/work/demo`. -/
theorem claim8_witness :
    cwdSwitchedBeforeInstall (resolveP ["work"] "demo")
      (cliProgramAction demoTpl 0 "demo" demoSt).effs = true :=
  (claim8_chdir_before_install demoTpl 0 "demo" demoSt Entry.dir
      [("name", "template"), ("version", "0.0.1")]
      (by decide) (by decide) (by decide)).1

/-- C10: whatever entry previously sat at the target's `package.json` path,
after the copy-then-patch sequence the manifest on disk derives from the
template's `package.json` (the copy replaced the pre-existing file before
the patch read it), while a path under the target with no counterpart in
the template keeps exactly its prior entry (merge-overwrite). -/
theorem claim10_merge_overwrite
    (templateDir : List String) (installExit : Nat) (pn : String) (st : St)
    (e0 : Entry) (kvs : List (String × String)) (rx : List String)
    (hseg : plainSeg pn)
    (htpl : st.fs templateDir = some e0)
    (hpkg : st.fs (templateDir ++ ["package.json"]) = some (Entry.jsonFile kvs))
    (hmiss : st.fs (templateDir ++ rx) = none)
    (hrx : rx ≠ ["package.json"]) :
    (cliProgramAction templateDir installExit pn st).st.fs
        (st.cwd ++ [pn, "package.json"]) =
      some (Entry.jsonFile (setField kvs "name" pn))
    ∧ (cliProgramAction templateDir installExit pn st).st.fs
        ((st.cwd ++ [pn]) ++ rx) = st.fs ((st.cwd ++ [pn]) ++ rx) := by
  have hout : cliProgramAction templateDir installExit pn st =
      createApp templateDir installExit (cliArgs st.cwd pn).1 pn st := rfl
  rw [hout, createApp_run _ _ _ _ _ e0 kvs hseg htpl hpkg]
  constructor
  · dsimp only
    exact writeJsonFS_at _ _ _
  · dsimp only
    have hq : (st.cwd ++ [pn]) ++ rx ≠ st.cwd ++ [pn, "package.json"] := by
      have hpkgeq : st.cwd ++ [pn, "package.json"] =
          (st.cwd ++ [pn]) ++ ["package.json"] := by simp
      rw [hpkgeq]
      intro h1
      exact hrx (List.append_cancel_left h1)
    rw [writeJsonFS_ne _ _ _ _ hq]
    exact copyMap_src_none _ _ _ _ hmiss

/-- C10 witness: a path under the target absent from the template keeps its
prior (here: absent) entry in the concrete run. -/
theorem claim10_witness :
    (cliProgramAction demoTpl 0 "demo" demoSt).st.fs
      ["work", "demo", "notes.txt"] = demoSt.fs ["work", "demo", "notes.txt"] := by
  have h := (claim10_merge_overwrite demoTpl 0 "demo" demoSt Entry.dir
      [("name", "template"), ("version", "0.0.1")] ["notes.txt"]
      (by decide) (by decide) (by decide) (by decide) (by decide)).2
  simpa using h

end CreateSidReactApp
